import Mathlib

/-!
Verification of `transform_spritesheet` (src/main.rs): a build-time tool that
converts a flat 368×48 RGBA texture-map image (23 blocks × 3 sides of 16×16
faces) into isometric 32×32 tiles and emits them as Rust source text.

The Rust code is shallowly embedded: u8 channels become `Nat` (only halving
and comparison are performed, so no overflow arises), `Vec<Rgba<u8>>` becomes
`List Rgba`, fallible operations (`unwrap`, indexing that could panic) become
`Option`, and the exact `f32` arithmetic of the isometric transform becomes
`ℚ`.  The latter is faithful: every quantity in `transform_isometric_texture`
is a multiple of 1/2 with magnitude below 64, the determinant used by
`Mat2::inverse` is exactly 1.0, and all products and sums of such dyadic
values are exactly representable in IEEE-754 single precision, so the `f32`
computation of the source equals the rational one modelled here.
-/

/-- One RGBA pixel: 4 unsigned 8-bit channels (`image::Rgba<u8>`). Channels
are embedded as `Nat`; the program only copies, halves and compares them. -/
structure Rgba where
  r : Nat
  g : Nat
  b : Nat
  a : Nat
deriving DecidableEq, Repr

/-- `const TEXTURE_SRC_SIZE: u8 = 16` -/
def TEXTURE_SRC_SIZE : Nat := 16

/-- `const BLOCKS: u8 = 23` -/
def BLOCKS : Nat := 23

/-- `const SIDES: u8 = 3` -/
def SIDES : Nat := 3

/-- `const TEXTURE_WIDTH: usize = TEXTURE_SRC_SIZE * BLOCKS` -/
def TEXTURE_WIDTH : Nat := TEXTURE_SRC_SIZE * BLOCKS

/-- `const TEXTURE_HEIGHT: usize = TEXTURE_SRC_SIZE * SIDES` -/
def TEXTURE_HEIGHT : Nat := TEXTURE_SRC_SIZE * SIDES

/-- `const ISOMETRIC_WIDTH: usize = TEXTURE_SRC_SIZE * 2` -/
def ISOMETRIC_WIDTH : Nat := TEXTURE_SRC_SIZE * 2

/-- `const ISOMETRIC_HEIGHT: usize = TEXTURE_SRC_SIZE * 2` -/
def ISOMETRIC_HEIGHT : Nat := TEXTURE_SRC_SIZE * 2

/-- An `image::RgbaImage`: dimensions plus the raster-order (row-major) pixel
buffer.  `img.pixels()` iterates `data` in order; `img.get_pixel(x, y)` reads
index `y * width + x`.  In the source an out-of-range `get_pixel` panics; the
embedding totalises it with a default and every statement that depends on a
pixel read restricts the image to the in-range layout. -/
structure Image where
  width : Nat
  height : Nat
  data : List Rgba

/-- `img.get_pixel(x, y)` (row-major index `y * width + x`). -/
def Image.getPixel (img : Image) (x y : Nat) : Rgba :=
  img.data.getD (y * img.width + x) ⟨0, 0, 0, 0⟩

/-- `TextureConverter::normalize_transparent_pixels`: every pixel whose alpha
is zero has its R, G, B channels forced to zero; alpha is untouched. -/
def normalizeTransparentPixels (img : Image) : Image :=
  { img with
    data := img.data.map fun p => if p.a = 0 then ⟨0, 0, 0, p.a⟩ else p }

/-- The first (deduplication) loop of `TextureConverter::fill_palette`: scan
the pixels in order and append each color the first time it is seen. -/
def dedupPixels (pixels : List Rgba) : List Rgba :=
  pixels.foldl (fun pal p => if p ∈ pal then pal else pal ++ [p]) []

/-- The "water" variant pushed by `fill_palette`:
`[color[0] / 2, color[1] / 2, 255 / 2, color[3]]`. -/
def waterVariant (p : Rgba) : Rgba := ⟨p.r / 2, p.g / 2, 255 / 2, p.a⟩

/-- The "shadow" variant pushed by `fill_palette`:
`[color[0] / 2, color[1] / 2, color[2] / 2, color[3]]`. -/
def shadowVariant (p : Rgba) : Rgba := ⟨p.r / 2, p.g / 2, p.b / 2, p.a⟩

/-- `TextureConverter::fill_palette` on the image's raster pixel list:
deduplicate; then for a snapshot of the palette push every water variant;
then for a snapshot of the grown palette push every shadow variant. -/
def fillPalette (pixels : List Rgba) : List Rgba :=
  let pal := dedupPixels pixels
  let pal := pal ++ pal.map waterVariant
  pal ++ pal.map shadowVariant

-- Basic facts about the dedup fold.

theorem dedupAux_nodup (pixels : List Rgba) (acc : List Rgba) (h : acc.Nodup) :
    (pixels.foldl (fun pal p => if p ∈ pal then pal else pal ++ [p]) acc).Nodup := by
  induction pixels generalizing acc with
  | nil => simpa using h
  | cons q qs ih =>
    simp only [List.foldl_cons]
    by_cases hq : q ∈ acc
    · rw [if_pos hq]
      exact ih acc h
    · rw [if_neg hq]
      refine ih (acc ++ [q]) ?_
      simpa [List.nodup_append, hq] using h

theorem dedupAux_mem (pixels : List Rgba) (acc : List Rgba) (x : Rgba) :
    x ∈ pixels.foldl (fun pal p => if p ∈ pal then pal else pal ++ [p]) acc
      ↔ x ∈ acc ∨ x ∈ pixels := by
  induction pixels generalizing acc with
  | nil => simp
  | cons q qs ih =>
    simp only [List.foldl_cons]
    by_cases hq : q ∈ acc
    · rw [if_pos hq, ih]
      constructor
      · rintro (h | h)
        · exact Or.inl h
        · exact Or.inr (List.mem_cons_of_mem _ h)
      · rintro (h | h)
        · exact Or.inl h
        · rcases List.mem_cons.mp h with rfl | h
          · exact Or.inl hq
          · exact Or.inr h
    · rw [if_neg hq, ih]
      simp only [List.mem_append, List.mem_cons, List.mem_singleton]
      tauto

theorem dedupPixels_nodup (pixels : List Rgba) : (dedupPixels pixels).Nodup :=
  dedupAux_nodup pixels [] List.nodup_nil

theorem dedupPixels_mem (pixels : List Rgba) (x : Rgba) :
    x ∈ dedupPixels pixels ↔ x ∈ pixels := by
  unfold dedupPixels
  rw [dedupAux_mem]
  simp

theorem mem_fillPalette_of_mem (pixels : List Rgba) (x : Rgba) (h : x ∈ pixels) :
    x ∈ fillPalette pixels := by
  unfold fillPalette
  have : x ∈ dedupPixels pixels := (dedupPixels_mem pixels x).mpr h
  simp [this]

theorem fillPalette_length (pixels : List Rgba) :
    (fillPalette pixels).length = 4 * (dedupPixels pixels).length := by
  simp [fillPalette]
  omega

-- Index-level structure of the palette built by `fill_palette`.

theorem fillPalette_eq (pixels : List Rgba) :
    fillPalette pixels =
      (dedupPixels pixels ++ (dedupPixels pixels).map waterVariant)
        ++ (dedupPixels pixels ++ (dedupPixels pixels).map waterVariant).map shadowVariant :=
  rfl

theorem fillPalette_water_entry (pixels : List Rgba) (i : Nat)
    (hi : i < (dedupPixels pixels).length) :
    (fillPalette pixels).getD ((dedupPixels pixels).length + i) ⟨0, 0, 0, 0⟩
      = waterVariant ((fillPalette pixels).getD i ⟨0, 0, 0, 0⟩) := by
  rw [fillPalette_eq]
  set d := dedupPixels pixels with hd
  have hlen1 : (d ++ d.map waterVariant).length = d.length + d.length := by simp
  have hmem : d.length + i < (d ++ d.map waterVariant).length := by omega
  have hL : ((d ++ d.map waterVariant)
        ++ (d ++ d.map waterVariant).map shadowVariant).getD (d.length + i) ⟨0, 0, 0, 0⟩
      = waterVariant (d.getD i ⟨0, 0, 0, 0⟩) := by
    rw [List.getD_append _ _ _ _ hmem,
      List.getD_append_right _ _ _ _ (by omega : d.length ≤ d.length + i)]
    have h1 : d.length + i - d.length = i := by omega
    rw [h1, List.getD_eq_getElem _ _ (by simpa using hi), List.getD_eq_getElem _ _ hi,
      List.getElem_map]
  have hR : ((d ++ d.map waterVariant)
        ++ (d ++ d.map waterVariant).map shadowVariant).getD i ⟨0, 0, 0, 0⟩
      = d.getD i ⟨0, 0, 0, 0⟩ := by
    rw [List.getD_append _ _ _ _ (by omega : i < (d ++ d.map waterVariant).length),
      List.getD_append _ _ _ _ hi]
  rw [hL, hR]

theorem fillPalette_shadow_entry (pixels : List Rgba) (j : Nat)
    (hj : j < 2 * (dedupPixels pixels).length) :
    (fillPalette pixels).getD (2 * (dedupPixels pixels).length + j) ⟨0, 0, 0, 0⟩
      = shadowVariant ((fillPalette pixels).getD j ⟨0, 0, 0, 0⟩) := by
  rw [fillPalette_eq]
  set d := dedupPixels pixels with hd
  have hlen1 : (d ++ d.map waterVariant).length = d.length + d.length := by simp
  have hj' : j < (d ++ d.map waterVariant).length := by omega
  have hL : ((d ++ d.map waterVariant)
        ++ (d ++ d.map waterVariant).map shadowVariant).getD
          (2 * d.length + j) ⟨0, 0, 0, 0⟩
      = shadowVariant ((d ++ d.map waterVariant).getD j ⟨0, 0, 0, 0⟩) := by
    rw [List.getD_append_right _ _ _ _
        (by omega : (d ++ d.map waterVariant).length ≤ 2 * d.length + j)]
    have h1 : 2 * d.length + j - (d ++ d.map waterVariant).length = j := by omega
    rw [h1, List.getD_eq_getElem _ _ (by simpa using hj'), List.getD_eq_getElem _ _ hj',
      List.getElem_map]
  have hR : ((d ++ d.map waterVariant)
        ++ (d ++ d.map waterVariant).map shadowVariant).getD j ⟨0, 0, 0, 0⟩
      = (d ++ d.map waterVariant).getD j ⟨0, 0, 0, 0⟩ :=
    List.getD_append _ _ _ _ hj'
  rw [hL, hR]

theorem fillPalette_take (pixels : List Rgba) :
    (fillPalette pixels).take (dedupPixels pixels).length = dedupPixels pixels := by
  rw [fillPalette_eq]
  rw [List.take_append_eq_append_take, List.take_append_eq_append_take]
  simp

/-- C2: for every input pixel list (the normalized image's raster pixels),
the palette has exactly `4 * U` entries, where `U` counts the distinct pixel
values; its first `U` entries are the distinct originals in first-seen order;
entry `U + i` is the water variant `(r/2, g/2, 127, a)` of entry `i`; and
entry `2U + j` for `j < 2U` is the shadow variant `(r/2, g/2, b/2, a)` of
entry `j`, so shadow variants cover both the original and the water group. -/
theorem claim_C2_palette (pixels : List Rgba) (i j : Nat)
    (hi : i < (dedupPixels pixels).length)
    (hj : j < 2 * (dedupPixels pixels).length) :
    (fillPalette pixels).length = 4 * (dedupPixels pixels).length ∧
    (fillPalette pixels).take (dedupPixels pixels).length = dedupPixels pixels ∧
    (dedupPixels pixels).Nodup ∧
    (∀ p, p ∈ dedupPixels pixels ↔ p ∈ pixels) ∧
    (fillPalette pixels).getD ((dedupPixels pixels).length + i) ⟨0, 0, 0, 0⟩
      = waterVariant ((fillPalette pixels).getD i ⟨0, 0, 0, 0⟩) ∧
    waterVariant = (fun p => ⟨p.r / 2, p.g / 2, 127, p.a⟩) ∧
    (fillPalette pixels).getD (2 * (dedupPixels pixels).length + j) ⟨0, 0, 0, 0⟩
      = shadowVariant ((fillPalette pixels).getD j ⟨0, 0, 0, 0⟩) :=
  ⟨fillPalette_length pixels, fillPalette_take pixels, dedupPixels_nodup pixels,
    dedupPixels_mem pixels, fillPalette_water_entry pixels i hi, rfl,
    fillPalette_shadow_entry pixels j hj⟩

theorem claim_C2_palette_witness :
    (fillPalette [⟨10, 20, 30, 255⟩, ⟨10, 20, 30, 255⟩, ⟨8, 8, 8, 0⟩]).length
        = 4 * (dedupPixels [⟨10, 20, 30, 255⟩, ⟨10, 20, 30, 255⟩, ⟨8, 8, 8, 0⟩]).length ∧
    (fillPalette [⟨10, 20, 30, 255⟩, ⟨10, 20, 30, 255⟩, ⟨8, 8, 8, 0⟩]).take
        (dedupPixels [⟨10, 20, 30, 255⟩, ⟨10, 20, 30, 255⟩, ⟨8, 8, 8, 0⟩]).length
        = dedupPixels [⟨10, 20, 30, 255⟩, ⟨10, 20, 30, 255⟩, ⟨8, 8, 8, 0⟩] ∧
    (dedupPixels [⟨10, 20, 30, 255⟩, ⟨10, 20, 30, 255⟩, ⟨8, 8, 8, 0⟩]).Nodup ∧
    (∀ p, p ∈ dedupPixels [⟨10, 20, 30, 255⟩, ⟨10, 20, 30, 255⟩, ⟨8, 8, 8, 0⟩]
        ↔ p ∈ [⟨10, 20, 30, 255⟩, ⟨10, 20, 30, 255⟩, ⟨8, 8, 8, 0⟩]) ∧
    (fillPalette [⟨10, 20, 30, 255⟩, ⟨10, 20, 30, 255⟩, ⟨8, 8, 8, 0⟩]).getD
        ((dedupPixels [⟨10, 20, 30, 255⟩, ⟨10, 20, 30, 255⟩, ⟨8, 8, 8, 0⟩]).length + 1)
        ⟨0, 0, 0, 0⟩
      = waterVariant ((fillPalette [⟨10, 20, 30, 255⟩, ⟨10, 20, 30, 255⟩, ⟨8, 8, 8, 0⟩]).getD 1
        ⟨0, 0, 0, 0⟩) ∧
    waterVariant = (fun p => ⟨p.r / 2, p.g / 2, 127, p.a⟩) ∧
    (fillPalette [⟨10, 20, 30, 255⟩, ⟨10, 20, 30, 255⟩, ⟨8, 8, 8, 0⟩]).getD
        (2 * (dedupPixels [⟨10, 20, 30, 255⟩, ⟨10, 20, 30, 255⟩, ⟨8, 8, 8, 0⟩]).length + 3)
        ⟨0, 0, 0, 0⟩
      = shadowVariant ((fillPalette [⟨10, 20, 30, 255⟩, ⟨10, 20, 30, 255⟩, ⟨8, 8, 8, 0⟩]).getD 3
        ⟨0, 0, 0, 0⟩) :=
  claim_C2_palette [⟨10, 20, 30, 255⟩, ⟨10, 20, 30, 255⟩, ⟨8, 8, 8, 0⟩] 1 3
    (by decide) (by decide)

/-- C7: after the normalization pre-pass, every pixel whose alpha was zero
has R = G = B = 0 with alpha unchanged, and every pixel whose alpha was
nonzero is left entirely unchanged; dimensions and pixel count are kept. -/
theorem claim_C7_normalize (img : Image) (i : Nat) (h : i < img.data.length) :
    ((img.data.getD i ⟨0, 0, 0, 0⟩).a = 0 →
      (normalizeTransparentPixels img).data.getD i ⟨0, 0, 0, 0⟩
        = ⟨0, 0, 0, (img.data.getD i ⟨0, 0, 0, 0⟩).a⟩) ∧
    ((img.data.getD i ⟨0, 0, 0, 0⟩).a ≠ 0 →
      (normalizeTransparentPixels img).data.getD i ⟨0, 0, 0, 0⟩
        = img.data.getD i ⟨0, 0, 0, 0⟩) ∧
    (normalizeTransparentPixels img).width = img.width ∧
    (normalizeTransparentPixels img).height = img.height ∧
    (normalizeTransparentPixels img).data.length = img.data.length := by
  have hlen : (normalizeTransparentPixels img).data.length = img.data.length := by
    simp [normalizeTransparentPixels]
  have hget : (normalizeTransparentPixels img).data.getD i ⟨0, 0, 0, 0⟩
      = if (img.data.getD i ⟨0, 0, 0, 0⟩).a = 0 then ⟨0, 0, 0, (img.data.getD i ⟨0, 0, 0, 0⟩).a⟩
        else img.data.getD i ⟨0, 0, 0, 0⟩ := by
    rw [List.getD_eq_getElem _ _ (by omega), List.getD_eq_getElem _ _ h]
    simp only [normalizeTransparentPixels]
    rw [List.getElem_map]
  refine ⟨?_, ?_, rfl, rfl, hlen⟩
  · intro ha; rw [hget, if_pos ha]
  · intro ha; rw [hget, if_neg ha]

theorem claim_C7_normalize_witness :
    let img : Image := ⟨2, 1, [⟨9, 9, 9, 0⟩, ⟨1, 2, 3, 4⟩]⟩
    ((img.data.getD 0 ⟨0, 0, 0, 0⟩).a = 0 →
      (normalizeTransparentPixels img).data.getD 0 ⟨0, 0, 0, 0⟩
        = ⟨0, 0, 0, (img.data.getD 0 ⟨0, 0, 0, 0⟩).a⟩) ∧
    ((img.data.getD 0 ⟨0, 0, 0, 0⟩).a ≠ 0 →
      (normalizeTransparentPixels img).data.getD 0 ⟨0, 0, 0, 0⟩
        = img.data.getD 0 ⟨0, 0, 0, 0⟩) ∧
    (normalizeTransparentPixels img).width = img.width ∧
    (normalizeTransparentPixels img).height = img.height ∧
    (normalizeTransparentPixels img).data.length = img.data.length :=
  claim_C7_normalize ⟨2, 1, [⟨9, 9, 9, 0⟩, ⟨1, 2, 3, 4⟩]⟩ 0 (by decide)

/-! ## 2D grids (`Vec<Vec<Rgba<u8>>>`) -/

/-- `grid[i][j] = v` on a `Vec<Vec<_>>`.  Like `List.set`, an out-of-range
index leaves the grid unchanged where the source would panic; every claim
about a grid write is accompanied by a proof that the index is in range. -/
def set2 (g : List (List Rgba)) (i j : Nat) (v : Rgba) : List (List Rgba) :=
  g.set i ((g.getD i []).set j v)

/-- Read `grid[i][j]` with a transparent-black default. -/
def get2 (g : List (List Rgba)) (i j : Nat) : Rgba :=
  (g.getD i []).getD j ⟨0, 0, 0, 0⟩

theorem length_set2 (g : List (List Rgba)) (i j : Nat) (v : Rgba) :
    (set2 g i j v).length = g.length := by
  simp [set2]

theorem getD_set2_ne (g : List (List Rgba)) (i j : Nat) (v : Rgba) (k : Nat)
    (h : k ≠ i) :
    (set2 g i j v).getD k [] = g.getD k [] := by
  unfold set2
  rcases Nat.lt_or_ge k g.length with hk | hk
  · rw [List.getD_eq_getElem _ _ (by simpa using hk), List.getD_eq_getElem _ _ hk]
    rw [List.getElem_set, if_neg (fun h' => h h'.symm)]
  · rw [List.getD_eq_default _ _ (by simpa using hk), List.getD_eq_default _ _ hk]

theorem getD_set2_self (g : List (List Rgba)) (i j : Nat) (v : Rgba)
    (h : i < g.length) :
    (set2 g i j v).getD i [] = ((g.getD i []).set j v) := by
  unfold set2
  rw [List.getD_eq_getElem _ _ (by simpa using h), List.getElem_set]
  simp

theorem innerLength_set2 (g : List (List Rgba)) (i j : Nat) (v : Rgba) (k : Nat) :
    ((set2 g i j v).getD k []).length = (g.getD k []).length := by
  by_cases hk : k = i
  · subst hk
    by_cases h : k < g.length
    · rw [getD_set2_self g k j v h]; simp
    · unfold set2
      rw [List.set_eq_of_length_le (by omega)]
  · rw [getD_set2_ne g i j v k hk]

theorem get2_set2_self (g : List (List Rgba)) (i j : Nat) (v : Rgba)
    (hi : i < g.length) (hj : j < (g.getD i []).length) :
    get2 (set2 g i j v) i j = v := by
  unfold get2
  rw [getD_set2_self g i j v hi, List.getD_eq_getElem _ _ (by simpa using hj),
    List.getElem_set]
  simp

theorem get2_set2_ne (g : List (List Rgba)) (i j : Nat) (v : Rgba) (k l : Nat)
    (h : k ≠ i ∨ l ≠ j) :
    get2 (set2 g i j v) k l = get2 g k l := by
  unfold get2
  by_cases hk : k = i
  · subst hk
    rcases h with h | h
    · exact absurd rfl h
    · by_cases hlen : k < g.length
      · rw [getD_set2_self g k j v hlen]
        rcases Nat.lt_or_ge l (g.getD k []).length with hl | hl
        · rw [List.getD_eq_getElem _ _ (by simpa using hl),
            List.getD_eq_getElem _ _ hl, List.getElem_set,
            if_neg (fun h' => h h'.symm)]
        · rw [List.getD_eq_default _ _ (by simpa using hl), List.getD_eq_default _ _ hl]
      · unfold set2
        rw [List.set_eq_of_length_le (by omega)]
  · rw [getD_set2_ne g i j v k hk]

/-- The value a conditional-write fold leaves at one cell.  The fold visits
`cs` in order; each visited coordinate `c` writes `val c` to cell
`(ki c, kj c)` when `cond c` holds.  If no two distinct visited coordinates
target the queried cell, the final value is `val c0` when `c0` was visited
and wrote, and the initial value otherwise. -/
theorem foldl_set2_get (ki kj : Nat × Nat → Nat) (cond : Nat × Nat → Bool)
    (val : Nat × Nat → Rgba) (cs : List (Nat × Nat)) :
    ∀ (g : List (List Rgba)) (c0 : Nat × Nat),
      ki c0 < g.length → kj c0 < (g.getD (ki c0) []).length →
      (∀ c ∈ cs, ki c = ki c0 → kj c = kj c0 → c = c0) →
      get2 (cs.foldl
          (fun o c => if cond c then set2 o (ki c) (kj c) (val c) else o) g)
          (ki c0) (kj c0)
        = if c0 ∈ cs ∧ cond c0 then val c0 else get2 g (ki c0) (kj c0) := by
  induction cs with
  | nil =>
    intro g c0 _ _ _
    simp
  | cons c cs ih =>
    intro g c0 hki hkj hinj
    simp only [List.foldl_cons]
    have hlen : ∀ (o : List (List Rgba)) (c' : Nat × Nat),
        ((if cond c' then set2 o (ki c') (kj c') (val c') else o)).length = o.length := by
      intro o c'
      by_cases hc : cond c' <;> simp [hc, length_set2]
    have hinner : ∀ (o : List (List Rgba)) (c' : Nat × Nat) (k : Nat),
        (((if cond c' then set2 o (ki c') (kj c') (val c') else o)).getD k []).length
          = ((o.getD k []).length) := by
      intro o c' k
      by_cases hc : cond c'
      · rw [if_pos hc]
        exact innerLength_set2 o (ki c') (kj c') (val c') k
      · rw [if_neg hc]
    rw [ih _ c0 (by rw [hlen]; exact hki) (by rw [hinner]; exact hkj)
      (fun c' hc' => hinj c' (List.mem_cons_of_mem _ hc'))]
    by_cases hmem : c0 ∈ cs ∧ cond c0 = true
    · rw [if_pos hmem, if_pos ⟨List.mem_cons_of_mem _ hmem.1, hmem.2⟩]
    · rw [if_neg hmem]
      by_cases hc0 : c = c0
      · subst hc0
        by_cases hcond : cond c
        · rw [if_pos hcond, get2_set2_self _ _ _ _ hki hkj,
            if_pos ⟨List.mem_cons_self _ _, hcond⟩]
        · rw [if_neg hcond, if_neg]
          intro hx
          rcases hx with ⟨_, hx2⟩
          exact hcond hx2
      · have hne : ki c ≠ ki c0 ∨ kj c ≠ kj c0 := by
          by_contra hcon
          push_neg at hcon
          exact hc0 (hinj c (List.mem_cons_self _ _) hcon.1 hcon.2)
        have hstep : get2 (if cond c then set2 g (ki c) (kj c) (val c) else g)
            (ki c0) (kj c0) = get2 g (ki c0) (kj c0) := by
          by_cases hcond : cond c
          · rw [if_pos hcond, get2_set2_ne]
            tauto
          · rw [if_neg hcond]
        rw [hstep, if_neg]
        intro hx
        rcases hx with ⟨hx1, hx2⟩
        rcases List.mem_cons.mp hx1 with h | h
        · exact hc0 h.symm
        · exact hmem ⟨h, hx2⟩

/-! ## Face Extractor (`set_unmodified_texture_source`) -/

/-- The iteration domain of `set_unmodified_texture_source`:
`for row in 0..TEXTURE_WIDTH { for col in 0..TEXTURE_HEIGHT { ... } }`. -/
def texCoords : List (Nat × Nat) :=
  (List.range TEXTURE_WIDTH).flatMap fun row =>
    (List.range TEXTURE_HEIGHT).map fun col => (row, col)

/-- `block_y + block_x * SIDES` with `block_x = row / 16`, `block_y = col / 16`. -/
def faceIndex (row col : Nat) : Nat :=
  col / TEXTURE_SRC_SIZE + (row / TEXTURE_SRC_SIZE) * SIDES

/-- `x + y * TEXTURE_SRC_SIZE` with `x = row % 16`, `y = col % 16`. -/
def faceOffset (row col : Nat) : Nat :=
  row % TEXTURE_SRC_SIZE + (col % TEXTURE_SRC_SIZE) * TEXTURE_SRC_SIZE

/-- `empty_face` from `TextureConverter::new`: a 16×16 magenta placeholder. -/
def emptyFace : List Rgba :=
  List.replicate (TEXTURE_SRC_SIZE * TEXTURE_SRC_SIZE) ⟨255, 0, 255, 255⟩

/-- `unmodified_texture` as initialised by `TextureConverter::new`:
`BLOCKS * SIDES` copies of `empty_face`. -/
def unmodInit : List (List Rgba) := List.replicate (BLOCKS * SIDES) emptyFace

/-- `TextureConverter::set_unmodified_texture_source`: for every (row, col),
find the first palette entry equal to the source pixel (`None` models the
fatal `unwrap` on a lookup miss) and store it at
`unmodified_texture[faceIndex][faceOffset]`. -/
def setUnmodifiedTextureSource (img : Image) (pal : List Rgba) :
    Option (List (List Rgba)) :=
  texCoords.foldlM
    (fun grid rc =>
      (pal.find? (fun e => e = img.getPixel rc.1 rc.2)).map fun p =>
        set2 grid (faceIndex rc.1 rc.2) (faceOffset rc.1 rc.2) p)
    unmodInit

theorem mem_texCoords (rc : Nat × Nat) :
    rc ∈ texCoords ↔ rc.1 < TEXTURE_WIDTH ∧ rc.2 < TEXTURE_HEIGHT := by
  obtain ⟨row, col⟩ := rc
  simp [texCoords, List.mem_flatMap, List.mem_range, eq_comm]

theorem find?_eq_of_mem (pal : List Rgba) (p : Rgba) (h : p ∈ pal) :
    pal.find? (fun e => e = p) = some p := by
  have hsome : (pal.find? (fun e => e = p)).isSome = true :=
    List.find?_isSome.mpr ⟨p, h, by simp⟩
  obtain ⟨q, hq⟩ := Option.isSome_iff_exists.mp hsome
  have : q = p := by simpa using List.find?_some hq
  rw [hq, this]

/-- When every pixel the loop reads is in the palette, the fallible fold
succeeds and, because the first exact match equals the pixel itself, it
equals the pure fold that writes the source pixel. -/
theorem setUnmodified_success (img : Image) (pal : List Rgba) :
    ∀ (cs : List (Nat × Nat)) (grid : List (List Rgba)),
      (∀ rc ∈ cs, img.getPixel rc.1 rc.2 ∈ pal) →
      cs.foldlM
          (fun grid rc =>
            (pal.find? (fun e => e = img.getPixel rc.1 rc.2)).map fun p =>
              set2 grid (faceIndex rc.1 rc.2) (faceOffset rc.1 rc.2) p)
          grid
        = some (cs.foldl
            (fun grid rc =>
              set2 grid (faceIndex rc.1 rc.2) (faceOffset rc.1 rc.2)
                (img.getPixel rc.1 rc.2)) grid) := by
  intro cs
  induction cs with
  | nil => intro grid _; rfl
  | cons c cs ih =>
    intro grid hmem
    rw [List.foldlM_cons, find?_eq_of_mem pal _ (hmem c (List.mem_cons_self _ _))]
    simp only [Option.map_some', Option.bind_eq_bind, Option.some_bind, List.foldl_cons]
    exact ih _ (fun rc hrc => hmem rc (List.mem_cons_of_mem _ hrc))

theorem faceIndex_lt (row col : Nat) (hr : row < TEXTURE_WIDTH)
    (hc : col < TEXTURE_HEIGHT) : faceIndex row col < BLOCKS * SIDES := by
  simp only [faceIndex, TEXTURE_SRC_SIZE, SIDES, TEXTURE_WIDTH, TEXTURE_HEIGHT,
    BLOCKS] at *
  omega

theorem faceOffset_lt (row col : Nat) :
    faceOffset row col < TEXTURE_SRC_SIZE * TEXTURE_SRC_SIZE := by
  simp only [faceOffset, TEXTURE_SRC_SIZE]
  omega

theorem faceKey_inj (r1 c1 r2 c2 : Nat) (h1 : r1 < TEXTURE_WIDTH)
    (h2 : c1 < TEXTURE_HEIGHT) (h3 : r2 < TEXTURE_WIDTH) (h4 : c2 < TEXTURE_HEIGHT)
    (hfi : faceIndex r1 c1 = faceIndex r2 c2)
    (hfo : faceOffset r1 c1 = faceOffset r2 c2) : r1 = r2 ∧ c1 = c2 := by
  simp only [faceIndex, faceOffset, TEXTURE_SRC_SIZE, SIDES, TEXTURE_WIDTH,
    TEXTURE_HEIGHT, BLOCKS] at *
  omega

theorem getPixel_mem (img : Image) (row col : Nat)
    (hw : img.width = TEXTURE_WIDTH)
    (hlen : img.data.length = TEXTURE_WIDTH * TEXTURE_HEIGHT)
    (hr : row < TEXTURE_WIDTH) (hc : col < TEXTURE_HEIGHT) :
    img.getPixel row col ∈ img.data := by
  have hidx : col * img.width + row < img.data.length := by
    rw [hw, hlen]
    simp only [TEXTURE_WIDTH, TEXTURE_HEIGHT, TEXTURE_SRC_SIZE, BLOCKS, SIDES] at *
    have : col * 368 ≤ 47 * 368 := Nat.mul_le_mul_right _ (by omega)
    omega
  rw [Image.getPixel, List.getD_eq_getElem _ _ hidx]
  exact List.getElem_mem hidx

/-- C6: on a 368×48 image whose palette was built from its own pixels, the
face extractor succeeds (the first-exact-match palette lookup never fails),
and for every source coordinate (row, col) the resulting grid holds, at face
index `col/16 + (row/16)*SIDES` and local offset `row%16 + (col%16)*16`, a
pixel equal to the source pixel at (row, col) — which is a palette entry. -/
theorem claim_C6_extractor (img : Image)
    (hw : img.width = TEXTURE_WIDTH)
    (hlen : img.data.length = TEXTURE_WIDTH * TEXTURE_HEIGHT)
    (row col : Nat) (hr : row < TEXTURE_WIDTH) (hc : col < TEXTURE_HEIGHT) :
    ∃ grid,
      setUnmodifiedTextureSource img (fillPalette img.data) = some grid ∧
      get2 grid (faceIndex row col) (faceOffset row col) = img.getPixel row col ∧
      img.getPixel row col ∈ fillPalette img.data := by
  have hpal : ∀ rc ∈ texCoords,
      img.getPixel rc.1 rc.2 ∈ fillPalette img.data := by
    intro rc hrc
    obtain ⟨h1, h2⟩ := (mem_texCoords rc).mp hrc
    exact mem_fillPalette_of_mem _ _ (getPixel_mem img rc.1 rc.2 hw hlen h1 h2)
  refine ⟨_, setUnmodified_success img (fillPalette img.data) texCoords unmodInit hpal,
    ?_, mem_fillPalette_of_mem _ _ (getPixel_mem img row col hw hlen hr hc)⟩
  have hfun : (fun (grid : List (List Rgba)) (rc : Nat × Nat) =>
        set2 grid (faceIndex rc.1 rc.2) (faceOffset rc.1 rc.2)
          (img.getPixel rc.1 rc.2))
      = (fun (o : List (List Rgba)) (c : Nat × Nat) =>
          if (fun (_ : Nat × Nat) => true) c then
            set2 o ((fun c => faceIndex c.1 c.2) c) ((fun c => faceOffset c.1 c.2) c)
              ((fun c => img.getPixel c.1 c.2) c)
          else o) := by
    funext o c
    simp
  rw [hfun, foldl_set2_get (fun c => faceIndex c.1 c.2) (fun c => faceOffset c.1 c.2)
      (fun _ => true) (fun c => img.getPixel c.1 c.2) texCoords unmodInit (row, col)
      ?_ ?_ ?_]
  · rw [if_pos ⟨(mem_texCoords (row, col)).mpr ⟨hr, hc⟩, rfl⟩]
  · simpa [unmodInit] using faceIndex_lt row col hr hc
  · have h1 : faceIndex row col < unmodInit.length := by
      simpa [unmodInit] using faceIndex_lt row col hr hc
    rw [List.getD_eq_getElem _ _ h1]
    simp only [unmodInit, List.getElem_replicate, emptyFace, List.length_replicate]
    exact faceOffset_lt row col
  · intro c hcmem hfi hfo
    obtain ⟨h1, h2⟩ := (mem_texCoords c).mp hcmem
    obtain ⟨e1, e2⟩ := faceKey_inj c.1 c.2 row col h1 h2 hr hc hfi hfo
    exact Prod.ext e1 e2

theorem claim_C6_extractor_witness :
    ∃ grid,
      setUnmodifiedTextureSource
          ⟨TEXTURE_WIDTH, TEXTURE_HEIGHT,
            List.replicate (TEXTURE_WIDTH * TEXTURE_HEIGHT) ⟨200, 30, 40, 255⟩⟩
          (fillPalette (List.replicate (TEXTURE_WIDTH * TEXTURE_HEIGHT) ⟨200, 30, 40, 255⟩))
        = some grid ∧
      get2 grid (faceIndex 20 35) (faceOffset 20 35)
        = Image.getPixel
            ⟨TEXTURE_WIDTH, TEXTURE_HEIGHT,
              List.replicate (TEXTURE_WIDTH * TEXTURE_HEIGHT) ⟨200, 30, 40, 255⟩⟩ 20 35 ∧
      Image.getPixel
          ⟨TEXTURE_WIDTH, TEXTURE_HEIGHT,
            List.replicate (TEXTURE_WIDTH * TEXTURE_HEIGHT) ⟨200, 30, 40, 255⟩⟩ 20 35
        ∈ fillPalette (List.replicate (TEXTURE_WIDTH * TEXTURE_HEIGHT) ⟨200, 30, 40, 255⟩) :=
  claim_C6_extractor
    ⟨TEXTURE_WIDTH, TEXTURE_HEIGHT,
      List.replicate (TEXTURE_WIDTH * TEXTURE_HEIGHT) ⟨200, 30, 40, 255⟩⟩
    rfl (by simp) 20 35 (by decide) (by decide)

/-! ## Isometric Projector (`transform_isometric_texture`)

The source computes sample positions in `f32` via `glam`.  Every destination
coordinate is an integer ≤ 32, the translation offsets are 8 and 16, and the
three matrices have entries in {0, ±1, ±1/2} with determinant exactly 1, so
every intermediate value is a multiple of 1/2 of magnitude < 64: all `f32`
operations involved are exact and agree with the `ℚ` arithmetic used here. -/

/-- A `glam::Mat2` stored as its two column vectors. -/
structure Mat2 where
  xAxis : ℚ × ℚ
  yAxis : ℚ × ℚ

/-- `glam` matrix–vector product: `x_axis * v.x + y_axis * v.y`. -/
def Mat2.mulVec2 (m : Mat2) (v : ℚ × ℚ) : ℚ × ℚ :=
  (m.xAxis.1 * v.1 + m.yAxis.1 * v.2, m.xAxis.2 * v.1 + m.yAxis.2 * v.2)

/-- `glam::Mat2::inverse`: adjugate over the determinant. -/
def Mat2.inverse (m : Mat2) : Mat2 :=
  let det := m.xAxis.1 * m.yAxis.2 - m.xAxis.2 * m.yAxis.1
  ⟨(m.yAxis.2 / det, -m.xAxis.2 / det), (-m.yAxis.1 / det, m.xAxis.1 / det)⟩

/-- `fits_inside_rect`: `v.x < rect_size && v.y < rect_size && v.x >= 0.0 && v.y >= 0.0`. -/
def fitsInsideRect (v : ℚ × ℚ) (rectSize : ℚ) : Bool :=
  decide (v.1 < rectSize) && decide (v.2 < rectSize)
    && decide (0 ≤ v.1) && decide (0 ≤ v.2)

/-- `let top_offset = ISOMETRIC_HEIGHT / 4` (usize division). -/
def topOffset : Nat := ISOMETRIC_HEIGHT / 4

/-- `Mat2::from_cols_array_2d(&[[1.0, -0.5], [1.0, 0.5]])` (columns as given). -/
def topTransformationMatrix : Mat2 := ⟨(1, -1/2), (1, 1/2)⟩

/-- Left pass: `from_cols_array_2d(&[[1.0, shear.x], [shear.y, 1.0]])` with
`shear = (-0.5, 0.0)`. -/
def leftShearMatrix : Mat2 := ⟨(1, -1/2), (0, 1)⟩

/-- Right pass: the same construction with `shear = (0.5, 0.0)`. -/
def rightShearMatrix : Mat2 := ⟨(1, 1/2), (0, 1)⟩

/-- `let center = ISOMETRIC_HEIGHT as f32 / 2.0`. -/
def isoCenter : ℚ := (ISOMETRIC_HEIGHT : ℚ) / 2

/-- Top pass sample position:
`transformation_matrix.inverse().mul_vec2(Vec2::new(x, y - top_offset))`. -/
def topSamplePos (x y : Nat) : ℚ × ℚ :=
  topTransformationMatrix.inverse.mulVec2 ((x : ℚ), (y : ℚ) - (topOffset : ℚ))

/-- Left pass sample position:
`shear_matrix.mul_vec2(Vec2::new(x, y - top_offset))` (not inverted). -/
def leftSamplePos (x y : Nat) : ℚ × ℚ :=
  leftShearMatrix.mulVec2 ((x : ℚ), (y : ℚ) - (topOffset : ℚ))

/-- Right pass sample position:
`shear_matrix.mul_vec2(Vec2::new(x - center, y - center))`. -/
def rightSamplePos (x y : Nat) : ℚ × ℚ :=
  rightShearMatrix.mulVec2 ((x : ℚ) - isoCenter, (y : ℚ) - isoCenter)

/-- `sx as usize + sy as usize * TEXTURE_SRC_SIZE` after `floor`.  The `as
usize` cast of a nonnegative `f32` is its integer part (`Int.toNat ∘ floor`);
the only uses are guarded by `fitsInsideRect`, which forces both floors
nonnegative. -/
def sampleIdx (sp : ℚ × ℚ) : Nat :=
  (⌊sp.1⌋).toNat + (⌊sp.2⌋).toNat * TEXTURE_SRC_SIZE

/-- The per-pass iteration domain:
`for y in 0..=ISOMETRIC_HEIGHT { for x in 0..=ISOMETRIC_WIDTH { ... } }`
(an inclusive range: 33 × 33 coordinates). -/
def canvasCoords : List (Nat × Nat) :=
  (List.range (ISOMETRIC_HEIGHT + 1)).flatMap fun y =>
    (List.range (ISOMETRIC_WIDTH + 1)).map fun x => (x, y)

/-- `out`: `ISOMETRIC_HEIGHT` rows of `ISOMETRIC_WIDTH` transparent-black
pixels. -/
def isoCanvasInit : List (List Rgba) :=
  List.replicate ISOMETRIC_HEIGHT (List.replicate ISOMETRIC_WIDTH ⟨0, 0, 0, 0⟩)

/-- One face's conditional-write pass over the shared canvas: at every
destination coordinate whose sample position fits inside the 16×16 source
rectangle, write the floored source pixel to `out[y][x]`. -/
def facePass (face : List Rgba) (pos : Nat → Nat → ℚ × ℚ)
    (out : List (List Rgba)) : List (List Rgba) :=
  canvasCoords.foldl
    (fun o c =>
      if fitsInsideRect (pos c.1 c.2) (TEXTURE_SRC_SIZE : ℚ) then
        set2 o c.2 c.1 (face.getD (sampleIdx (pos c.1 c.2)) ⟨0, 0, 0, 0⟩)
      else o)
    out

/-- `TextureConverter::transform_isometric_texture`: top pass, then left,
then right, on one canvas, flattened row-major (`out.concat()`). -/
def transformIsometricTexture (top left right : List Rgba) : List Rgba :=
  (facePass right rightSamplePos
    (facePass left leftSamplePos
      (facePass top topSamplePos isoCanvasInit))).flatten

theorem mem_canvasCoords (c : Nat × Nat) :
    c ∈ canvasCoords ↔ c.1 < ISOMETRIC_WIDTH + 1 ∧ c.2 < ISOMETRIC_HEIGHT + 1 := by
  obtain ⟨x, y⟩ := c
  simp only [canvasCoords, List.mem_flatMap, List.mem_map, List.mem_range,
    Prod.mk.injEq]
  constructor
  · rintro ⟨a, ha, b, hb, rfl, rfl⟩
    exact ⟨hb, ha⟩
  · rintro ⟨h1, h2⟩
    exact ⟨y, h2, x, h1, rfl, rfl⟩

theorem facePass_length (face : List Rgba) (pos : Nat → Nat → ℚ × ℚ)
    (g : List (List Rgba)) : (facePass face pos g).length = g.length := by
  unfold facePass
  induction canvasCoords generalizing g with
  | nil => rfl
  | cons c cs ih =>
    rw [List.foldl_cons]
    rw [ih]
    by_cases hc : fitsInsideRect (pos c.1 c.2) (TEXTURE_SRC_SIZE : ℚ)
    · rw [if_pos hc, length_set2]
    · rw [if_neg hc]

theorem facePass_innerLength (face : List Rgba) (pos : Nat → Nat → ℚ × ℚ)
    (g : List (List Rgba)) (k : Nat) :
    ((facePass face pos g).getD k []).length = ((g.getD k []).length) := by
  unfold facePass
  induction canvasCoords generalizing g with
  | nil => rfl
  | cons c cs ih =>
    rw [List.foldl_cons, ih]
    by_cases hc : fitsInsideRect (pos c.1 c.2) (TEXTURE_SRC_SIZE : ℚ)
    · rw [if_pos hc, innerLength_set2]
    · rw [if_neg hc]

/-- What one face pass leaves at canvas cell `(y, x)`: the face sample if the
cell's sample position fits the 16×16 source rectangle, the previous canvas
value otherwise. -/
theorem facePass_get (face : List Rgba) (pos : Nat → Nat → ℚ × ℚ)
    (g : List (List Rgba)) (x y : Nat)
    (hx : x < ISOMETRIC_WIDTH + 1) (hy : y < ISOMETRIC_HEIGHT + 1)
    (hky : y < g.length) (hkx : x < (g.getD y []).length) :
    get2 (facePass face pos g) y x
      = if fitsInsideRect (pos x y) (TEXTURE_SRC_SIZE : ℚ) then
          face.getD (sampleIdx (pos x y)) ⟨0, 0, 0, 0⟩
        else get2 g y x := by
  unfold facePass
  have h := foldl_set2_get (fun c => c.2) (fun c => c.1)
    (fun c => fitsInsideRect (pos c.1 c.2) (TEXTURE_SRC_SIZE : ℚ))
    (fun c => face.getD (sampleIdx (pos c.1 c.2)) ⟨0, 0, 0, 0⟩)
    canvasCoords g (x, y) hky hkx
    (fun c _ h2 h1 => Prod.ext h1 h2)
  rw [h]
  have hmem : (x, y) ∈ canvasCoords := (mem_canvasCoords (x, y)).mpr ⟨hx, hy⟩
  by_cases hc : fitsInsideRect (pos x y) (TEXTURE_SRC_SIZE : ℚ)
  · rw [if_pos ⟨hmem, hc⟩, if_pos hc]
  · rw [if_neg (fun hcon => hc hcon.2), if_neg hc]

theorem get2_isoCanvasInit (x y : Nat) : get2 isoCanvasInit y x = ⟨0, 0, 0, 0⟩ := by
  unfold get2 isoCanvasInit
  rcases Nat.lt_or_ge y ISOMETRIC_HEIGHT with hy | hy
  · have h1 : (List.replicate ISOMETRIC_HEIGHT
          (List.replicate ISOMETRIC_WIDTH (⟨0, 0, 0, 0⟩ : Rgba))).getD y []
        = List.replicate ISOMETRIC_WIDTH ⟨0, 0, 0, 0⟩ := by
      rw [List.getD_eq_getElem _ _ (by simpa using hy), List.getElem_replicate]
    rw [h1]
    rcases Nat.lt_or_ge x ISOMETRIC_WIDTH with hx | hx
    · rw [List.getD_eq_getElem _ _ (by simpa using hx), List.getElem_replicate]
    · exact List.getD_eq_default _ _ (by simpa using hx)
  · have h1 : (List.replicate ISOMETRIC_HEIGHT
          (List.replicate ISOMETRIC_WIDTH (⟨0, 0, 0, 0⟩ : Rgba))).getD y []
        = [] := List.getD_eq_default _ _ (by simpa using hy)
    rw [h1]
    rfl

theorem flatten_getD (w : Nat) :
    ∀ (rows : List (List Rgba)) (y x : Nat) (d : Rgba),
      (∀ k, k < rows.length → (rows.getD k []).length = w) →
      y < rows.length → x < w →
      rows.flatten.getD (y * w + x) d = (rows.getD y []).getD x d := by
  intro rows
  induction rows with
  | nil => intro y x d _ hy _; simp at hy
  | cons r rs ih =>
    intro y x d hlens hy hx
    have hr : r.length = w := by simpa using hlens 0 (by simp)
    cases y with
    | zero =>
      simp only [List.flatten_cons, Nat.zero_mul, Nat.zero_add, List.getD_cons_zero]
      rw [List.getD_append _ _ _ _ (by omega)]
    | succ y' =>
      simp only [List.flatten_cons, List.getD_cons_succ]
      rw [List.getD_append_right _ _ _ _ (by rw [hr]; ring_nf; omega)]
      have harith : (y' + 1) * w + x - r.length = y' * w + x := by
        rw [hr]; ring_nf; omega
      rw [harith]
      exact ih y' x d (fun k hk => by simpa using hlens (k + 1) (by simpa using hk))
        (by simpa using hy) hx

theorem transformIso_innerLength (top left right : List Rgba) (k : Nat)
    (hk : k < ISOMETRIC_HEIGHT) :
    (((facePass right rightSamplePos
        (facePass left leftSamplePos
          (facePass top topSamplePos isoCanvasInit)))).getD k []).length
      = ISOMETRIC_WIDTH := by
  rw [facePass_innerLength, facePass_innerLength, facePass_innerLength]
  unfold isoCanvasInit
  rw [List.getD_eq_getElem _ _ (by simpa using hk), List.getElem_replicate]
  simp

theorem transformIso_outerLength (top left right : List Rgba) :
    ((facePass right rightSamplePos
        (facePass left leftSamplePos
          (facePass top topSamplePos isoCanvasInit)))).length = ISOMETRIC_HEIGHT := by
  rw [facePass_length, facePass_length, facePass_length]
  simp [isoCanvasInit]

/-- Pointwise characterisation of `transform_isometric_texture`: the flat
row-major output at `(x, y)` is the right-face sample when the right test
fits (the right pass runs last), else the left sample, else the top sample,
else untouched transparent black. -/
theorem transformIso_get (top left right : List Rgba) (x y : Nat)
    (hx : x < ISOMETRIC_WIDTH) (hy : y < ISOMETRIC_HEIGHT) :
    (transformIsometricTexture top left right).getD
        (y * ISOMETRIC_WIDTH + x) ⟨0, 0, 0, 0⟩
      = if fitsInsideRect (rightSamplePos x y) (TEXTURE_SRC_SIZE : ℚ) then
          right.getD (sampleIdx (rightSamplePos x y)) ⟨0, 0, 0, 0⟩
        else if fitsInsideRect (leftSamplePos x y) (TEXTURE_SRC_SIZE : ℚ) then
          left.getD (sampleIdx (leftSamplePos x y)) ⟨0, 0, 0, 0⟩
        else if fitsInsideRect (topSamplePos x y) (TEXTURE_SRC_SIZE : ℚ) then
          top.getD (sampleIdx (topSamplePos x y)) ⟨0, 0, 0, 0⟩
        else ⟨0, 0, 0, 0⟩ := by
  unfold transformIsometricTexture
  set g1 := facePass top topSamplePos isoCanvasInit with hg1
  set g2 := facePass left leftSamplePos g1 with hg2
  set g3 := facePass right rightSamplePos g2 with hg3
  have houter3 : g3.length = ISOMETRIC_HEIGHT := transformIso_outerLength top left right
  have hinner3 : ∀ k, k < g3.length → (g3.getD k []).length = ISOMETRIC_WIDTH := by
    intro k hk
    exact transformIso_innerLength top left right k (by omega)
  rw [flatten_getD ISOMETRIC_WIDTH g3 y x ⟨0, 0, 0, 0⟩ hinner3 (by omega) hx]
  have hget3 : get2 g3 y x
      = if fitsInsideRect (rightSamplePos x y) (TEXTURE_SRC_SIZE : ℚ) then
          right.getD (sampleIdx (rightSamplePos x y)) ⟨0, 0, 0, 0⟩
        else get2 g2 y x := by
    rw [hg3]
    refine facePass_get right rightSamplePos g2 x y (by omega) (by omega) ?_ ?_
    · rw [facePass_length, facePass_length]
      simpa [isoCanvasInit] using hy
    · rw [facePass_innerLength, facePass_innerLength]
      unfold isoCanvasInit
      rw [List.getD_eq_getElem _ _ (by simpa using hy), List.getElem_replicate]
      simpa using hx
  have hget2 : get2 g2 y x
      = if fitsInsideRect (leftSamplePos x y) (TEXTURE_SRC_SIZE : ℚ) then
          left.getD (sampleIdx (leftSamplePos x y)) ⟨0, 0, 0, 0⟩
        else get2 g1 y x := by
    rw [hg2]
    refine facePass_get left leftSamplePos g1 x y (by omega) (by omega) ?_ ?_
    · rw [facePass_length]
      simpa [isoCanvasInit] using hy
    · rw [facePass_innerLength]
      unfold isoCanvasInit
      rw [List.getD_eq_getElem _ _ (by simpa using hy), List.getElem_replicate]
      simpa using hx
  have hget1 : get2 g1 y x
      = if fitsInsideRect (topSamplePos x y) (TEXTURE_SRC_SIZE : ℚ) then
          top.getD (sampleIdx (topSamplePos x y)) ⟨0, 0, 0, 0⟩
        else ⟨0, 0, 0, 0⟩ := by
    rw [hg1]
    rw [facePass_get top topSamplePos isoCanvasInit x y (by omega) (by omega)
      (by simpa [isoCanvasInit] using hy)
      (by
        unfold isoCanvasInit
        rw [List.getD_eq_getElem _ _ (by simpa using hy), List.getElem_replicate]
        simpa using hx)]
    rw [get2_isoCanvasInit]
  show get2 g3 y x = _
  rw [hget3, hget2, hget1]

theorem sampleIdx_lt_of_fits (p : ℚ × ℚ)
    (h : fitsInsideRect p (TEXTURE_SRC_SIZE : ℚ) = true) :
    sampleIdx p < TEXTURE_SRC_SIZE * TEXTURE_SRC_SIZE := by
  unfold fitsInsideRect at h
  simp only [Bool.and_eq_true, decide_eq_true_eq] at h
  obtain ⟨⟨⟨h1, h2⟩, h3⟩, h4⟩ := h
  have hq : (TEXTURE_SRC_SIZE : ℚ) = ((16 : ℤ) : ℚ) := by norm_num [TEXTURE_SRC_SIZE]
  have f1 : ⌊p.1⌋ < 16 := by
    rw [Int.floor_lt]
    rw [hq] at h1
    exact_mod_cast h1
  have f2 : ⌊p.2⌋ < 16 := by
    rw [Int.floor_lt]
    rw [hq] at h2
    exact_mod_cast h2
  have g1 : (0 : ℤ) ≤ ⌊p.1⌋ := Int.floor_nonneg.mpr h3
  have g2 : (0 : ℤ) ≤ ⌊p.2⌋ := Int.floor_nonneg.mpr h4
  unfold sampleIdx TEXTURE_SRC_SIZE
  have t1 : (⌊p.1⌋).toNat < 16 := by omega
  have t2 : (⌊p.2⌋).toNat < 16 := by omega
  omega

theorem topOffset_q : ((topOffset : Nat) : ℚ) = 8 := by
  norm_num [topOffset, ISOMETRIC_HEIGHT, TEXTURE_SRC_SIZE]

theorem isoCenter_q : isoCenter = 16 := by
  norm_num [isoCenter, ISOMETRIC_HEIGHT, TEXTURE_SRC_SIZE]

theorem isoWidth_q : ((ISOMETRIC_WIDTH : Nat) : ℚ) = 32 := by
  norm_num [ISOMETRIC_WIDTH, TEXTURE_SRC_SIZE]

theorem isoHeight_q : ((ISOMETRIC_HEIGHT : Nat) : ℚ) = 32 := by
  norm_num [ISOMETRIC_HEIGHT, TEXTURE_SRC_SIZE]

theorem srcSize_q : ((TEXTURE_SRC_SIZE : Nat) : ℚ) = 16 := by
  norm_num [TEXTURE_SRC_SIZE]

theorem topSamplePos_eq (x y : Nat) :
    topSamplePos x y = ((x : ℚ)/2 - (y : ℚ) + 8, (x : ℚ)/2 + (y : ℚ) - 8) := by
  unfold topSamplePos topTransformationMatrix Mat2.inverse Mat2.mulVec2
  rw [topOffset_q]
  refine Prod.ext ?_ ?_ <;> norm_num <;> ring

theorem leftSamplePos_eq (x y : Nat) :
    leftSamplePos x y = ((x : ℚ), (y : ℚ) - 8 - (x : ℚ)/2) := by
  unfold leftSamplePos leftShearMatrix Mat2.mulVec2
  rw [topOffset_q]
  refine Prod.ext ?_ ?_ <;> norm_num <;> ring

theorem rightSamplePos_eq (x y : Nat) :
    rightSamplePos x y = ((x : ℚ) - 16, (x : ℚ)/2 + (y : ℚ) - 24) := by
  unfold rightSamplePos rightShearMatrix Mat2.mulVec2
  rw [isoCenter_q]
  refine Prod.ext ?_ ?_ <;> norm_num <;> ring

theorem fits_iff (p : ℚ × ℚ) (r : ℚ) :
    fitsInsideRect p r = true ↔ (p.1 < r ∧ p.2 < r ∧ 0 ≤ p.1 ∧ 0 ≤ p.2) := by
  unfold fitsInsideRect
  simp [and_assoc]

theorem fits_false_iff (p : ℚ × ℚ) (r : ℚ) :
    fitsInsideRect p r = false ↔ ¬(p.1 < r ∧ p.2 < r ∧ 0 ≤ p.1 ∧ 0 ≤ p.2) := by
  rw [← fits_iff p r]
  cases fitsInsideRect p r <;> simp

theorem edge_x32_no_fit : ∀ y, y < ISOMETRIC_HEIGHT + 1 →
    fitsInsideRect (topSamplePos ISOMETRIC_WIDTH y) (TEXTURE_SRC_SIZE : ℚ) = false ∧
    fitsInsideRect (leftSamplePos ISOMETRIC_WIDTH y) (TEXTURE_SRC_SIZE : ℚ) = false ∧
    fitsInsideRect (rightSamplePos ISOMETRIC_WIDTH y) (TEXTURE_SRC_SIZE : ℚ) = false := by
  intro y _
  have hy0 : (0 : ℚ) ≤ (y : ℚ) := Nat.cast_nonneg y
  refine ⟨?_, ?_, ?_⟩
  · rw [topSamplePos_eq, fits_false_iff, srcSize_q, isoWidth_q]
    rintro ⟨h1, h2, h3, h4⟩
    simp only at h1 h2 h3 h4
    linarith
  · rw [leftSamplePos_eq, fits_false_iff, srcSize_q, isoWidth_q]
    rintro ⟨h1, h2, h3, h4⟩
    simp only at h1 h2 h3 h4
    linarith
  · rw [rightSamplePos_eq, fits_false_iff, srcSize_q, isoWidth_q]
    rintro ⟨h1, h2, h3, h4⟩
    simp only at h1 h2 h3 h4
    linarith

theorem edge_y32_no_fit : ∀ x, x < ISOMETRIC_WIDTH + 1 →
    fitsInsideRect (topSamplePos x ISOMETRIC_HEIGHT) (TEXTURE_SRC_SIZE : ℚ) = false ∧
    fitsInsideRect (leftSamplePos x ISOMETRIC_HEIGHT) (TEXTURE_SRC_SIZE : ℚ) = false ∧
    fitsInsideRect (rightSamplePos x ISOMETRIC_HEIGHT) (TEXTURE_SRC_SIZE : ℚ) = false := by
  intro x _
  have hx0 : (0 : ℚ) ≤ (x : ℚ) := Nat.cast_nonneg x
  refine ⟨?_, ?_, ?_⟩
  · rw [topSamplePos_eq, fits_false_iff, srcSize_q, isoHeight_q]
    rintro ⟨h1, h2, h3, h4⟩
    simp only at h1 h2 h3 h4
    linarith
  · rw [leftSamplePos_eq, fits_false_iff, srcSize_q, isoHeight_q]
    rintro ⟨h1, h2, h3, h4⟩
    simp only at h1 h2 h3 h4
    linarith
  · rw [rightSamplePos_eq, fits_false_iff, srcSize_q, isoHeight_q]
    rintro ⟨h1, h2, h3, h4⟩
    simp only at h1 h2 h3 h4
    linarith

theorem row0_no_fit : ∀ x, x < ISOMETRIC_WIDTH + 1 →
    fitsInsideRect (topSamplePos x 0) (TEXTURE_SRC_SIZE : ℚ) = false ∧
    fitsInsideRect (leftSamplePos x 0) (TEXTURE_SRC_SIZE : ℚ) = false ∧
    fitsInsideRect (rightSamplePos x 0) (TEXTURE_SRC_SIZE : ℚ) = false := by
  intro x hx
  have hx0 : (0 : ℚ) ≤ (x : ℚ) := Nat.cast_nonneg x
  have hx32 : (x : ℚ) ≤ 32 := by
    have h : x ≤ 32 := by
      have := hx
      simp only [ISOMETRIC_WIDTH, TEXTURE_SRC_SIZE] at this
      omega
    exact_mod_cast h
  refine ⟨?_, ?_, ?_⟩
  · rw [topSamplePos_eq, fits_false_iff, srcSize_q]
    rintro ⟨h1, h2, h3, h4⟩
    simp only [Nat.cast_zero] at h1 h2 h3 h4
    linarith
  · rw [leftSamplePos_eq, fits_false_iff, srcSize_q]
    rintro ⟨h1, h2, h3, h4⟩
    simp only [Nat.cast_zero] at h1 h2 h3 h4
    linarith
  · rw [rightSamplePos_eq, fits_false_iff, srcSize_q]
    rintro ⟨h1, h2, h3, h4⟩
    simp only [Nat.cast_zero] at h1 h2 h3 h4
    linarith

/-- C4: although each face pass iterates the inclusive 33×33 destination
range, every destination coordinate with x = 32 or y = 32 fails all three
fits-inside-rect tests, so no write past the 32×32 canvas happens; and
whenever a test passes, the flat source index is within the 256-entry face. -/
theorem claim_C4_safety (x y : Nat)
    (hx : x < ISOMETRIC_WIDTH + 1) (hy : y < ISOMETRIC_HEIGHT + 1) :
    ((x = ISOMETRIC_WIDTH ∨ y = ISOMETRIC_HEIGHT) →
      fitsInsideRect (topSamplePos x y) (TEXTURE_SRC_SIZE : ℚ) = false ∧
      fitsInsideRect (leftSamplePos x y) (TEXTURE_SRC_SIZE : ℚ) = false ∧
      fitsInsideRect (rightSamplePos x y) (TEXTURE_SRC_SIZE : ℚ) = false) ∧
    (fitsInsideRect (topSamplePos x y) (TEXTURE_SRC_SIZE : ℚ) = true →
      sampleIdx (topSamplePos x y) < TEXTURE_SRC_SIZE * TEXTURE_SRC_SIZE) ∧
    (fitsInsideRect (leftSamplePos x y) (TEXTURE_SRC_SIZE : ℚ) = true →
      sampleIdx (leftSamplePos x y) < TEXTURE_SRC_SIZE * TEXTURE_SRC_SIZE) ∧
    (fitsInsideRect (rightSamplePos x y) (TEXTURE_SRC_SIZE : ℚ) = true →
      sampleIdx (rightSamplePos x y) < TEXTURE_SRC_SIZE * TEXTURE_SRC_SIZE) := by
  refine ⟨?_, sampleIdx_lt_of_fits _, sampleIdx_lt_of_fits _, sampleIdx_lt_of_fits _⟩
  rintro (rfl | rfl)
  · exact edge_x32_no_fit y hy
  · exact edge_y32_no_fit x hx

theorem claim_C4_safety_witness :
    ((32 = ISOMETRIC_WIDTH ∨ 7 = ISOMETRIC_HEIGHT) →
      fitsInsideRect (topSamplePos 32 7) (TEXTURE_SRC_SIZE : ℚ) = false ∧
      fitsInsideRect (leftSamplePos 32 7) (TEXTURE_SRC_SIZE : ℚ) = false ∧
      fitsInsideRect (rightSamplePos 32 7) (TEXTURE_SRC_SIZE : ℚ) = false) ∧
    (fitsInsideRect (topSamplePos 32 7) (TEXTURE_SRC_SIZE : ℚ) = true →
      sampleIdx (topSamplePos 32 7) < TEXTURE_SRC_SIZE * TEXTURE_SRC_SIZE) ∧
    (fitsInsideRect (leftSamplePos 32 7) (TEXTURE_SRC_SIZE : ℚ) = true →
      sampleIdx (leftSamplePos 32 7) < TEXTURE_SRC_SIZE * TEXTURE_SRC_SIZE) ∧
    (fitsInsideRect (rightSamplePos 32 7) (TEXTURE_SRC_SIZE : ℚ) = true →
      sampleIdx (rightSamplePos 32 7) < TEXTURE_SRC_SIZE * TEXTURE_SRC_SIZE) :=
  claim_C4_safety 32 7 (by decide) (by decide)

/-- C3: a destination pixel of the projected tile is non-transparent only if
one of the three faces' sample positions fits `[0,16)²`; where a test fits,
the written value is exactly the face pixel at flat index
`⌊sx⌋ + ⌊sy⌋·16` (right pass last, then left, then top — no blending); where
none fits the pixel stays transparent black. -/
theorem claim_C3_projection (top left right : List Rgba) (x y : Nat)
    (hx : x < ISOMETRIC_WIDTH) (hy : y < ISOMETRIC_HEIGHT) :
    ((transformIsometricTexture top left right).getD
        (y * ISOMETRIC_WIDTH + x) ⟨0, 0, 0, 0⟩ ≠ ⟨0, 0, 0, 0⟩ →
      fitsInsideRect (topSamplePos x y) (TEXTURE_SRC_SIZE : ℚ) = true ∨
      fitsInsideRect (leftSamplePos x y) (TEXTURE_SRC_SIZE : ℚ) = true ∨
      fitsInsideRect (rightSamplePos x y) (TEXTURE_SRC_SIZE : ℚ) = true) ∧
    (fitsInsideRect (rightSamplePos x y) (TEXTURE_SRC_SIZE : ℚ) = true →
      (transformIsometricTexture top left right).getD
          (y * ISOMETRIC_WIDTH + x) ⟨0, 0, 0, 0⟩
        = right.getD (sampleIdx (rightSamplePos x y)) ⟨0, 0, 0, 0⟩) ∧
    (fitsInsideRect (rightSamplePos x y) (TEXTURE_SRC_SIZE : ℚ) = false →
      fitsInsideRect (leftSamplePos x y) (TEXTURE_SRC_SIZE : ℚ) = true →
      (transformIsometricTexture top left right).getD
          (y * ISOMETRIC_WIDTH + x) ⟨0, 0, 0, 0⟩
        = left.getD (sampleIdx (leftSamplePos x y)) ⟨0, 0, 0, 0⟩) ∧
    (fitsInsideRect (rightSamplePos x y) (TEXTURE_SRC_SIZE : ℚ) = false →
      fitsInsideRect (leftSamplePos x y) (TEXTURE_SRC_SIZE : ℚ) = false →
      fitsInsideRect (topSamplePos x y) (TEXTURE_SRC_SIZE : ℚ) = true →
      (transformIsometricTexture top left right).getD
          (y * ISOMETRIC_WIDTH + x) ⟨0, 0, 0, 0⟩
        = top.getD (sampleIdx (topSamplePos x y)) ⟨0, 0, 0, 0⟩) ∧
    (fitsInsideRect (topSamplePos x y) (TEXTURE_SRC_SIZE : ℚ) = false →
      fitsInsideRect (leftSamplePos x y) (TEXTURE_SRC_SIZE : ℚ) = false →
      fitsInsideRect (rightSamplePos x y) (TEXTURE_SRC_SIZE : ℚ) = false →
      (transformIsometricTexture top left right).getD
          (y * ISOMETRIC_WIDTH + x) ⟨0, 0, 0, 0⟩ = ⟨0, 0, 0, 0⟩) := by
  have hchar := transformIso_get top left right x y hx hy
  refine ⟨?_, ?_, ?_, ?_, ?_⟩
  · intro hne
    by_contra hcon
    push_neg at hcon
    obtain ⟨n1, n2, n3⟩ := hcon
    rw [hchar, if_neg (by simp [Bool.eq_false_iff.mpr n3]),
      if_neg (by simp [Bool.eq_false_iff.mpr n2]),
      if_neg (by simp [Bool.eq_false_iff.mpr n1])] at hne
    exact hne rfl
  · intro hr
    rw [hchar, if_pos hr]
  · intro hr hl
    rw [hchar, if_neg (by simp [hr]), if_pos hl]
  · intro hr hl ht
    rw [hchar, if_neg (by simp [hr]), if_neg (by simp [hl]), if_pos ht]
  · intro ht hl hr
    rw [hchar, if_neg (by simp [hr]), if_neg (by simp [hl]), if_neg (by simp [ht])]

theorem claim_C3_projection_witness :
    ((transformIsometricTexture (List.replicate 256 ⟨1, 1, 1, 255⟩)
          (List.replicate 256 ⟨2, 2, 2, 255⟩) (List.replicate 256 ⟨3, 3, 3, 255⟩)).getD
        (10 * ISOMETRIC_WIDTH + 10) ⟨0, 0, 0, 0⟩ ≠ ⟨0, 0, 0, 0⟩ →
      fitsInsideRect (topSamplePos 10 10) (TEXTURE_SRC_SIZE : ℚ) = true ∨
      fitsInsideRect (leftSamplePos 10 10) (TEXTURE_SRC_SIZE : ℚ) = true ∨
      fitsInsideRect (rightSamplePos 10 10) (TEXTURE_SRC_SIZE : ℚ) = true) ∧
    (fitsInsideRect (rightSamplePos 10 10) (TEXTURE_SRC_SIZE : ℚ) = true →
      (transformIsometricTexture (List.replicate 256 ⟨1, 1, 1, 255⟩)
          (List.replicate 256 ⟨2, 2, 2, 255⟩) (List.replicate 256 ⟨3, 3, 3, 255⟩)).getD
          (10 * ISOMETRIC_WIDTH + 10) ⟨0, 0, 0, 0⟩
        = (List.replicate 256 ⟨3, 3, 3, 255⟩).getD
            (sampleIdx (rightSamplePos 10 10)) ⟨0, 0, 0, 0⟩) ∧
    (fitsInsideRect (rightSamplePos 10 10) (TEXTURE_SRC_SIZE : ℚ) = false →
      fitsInsideRect (leftSamplePos 10 10) (TEXTURE_SRC_SIZE : ℚ) = true →
      (transformIsometricTexture (List.replicate 256 ⟨1, 1, 1, 255⟩)
          (List.replicate 256 ⟨2, 2, 2, 255⟩) (List.replicate 256 ⟨3, 3, 3, 255⟩)).getD
          (10 * ISOMETRIC_WIDTH + 10) ⟨0, 0, 0, 0⟩
        = (List.replicate 256 ⟨2, 2, 2, 255⟩).getD
            (sampleIdx (leftSamplePos 10 10)) ⟨0, 0, 0, 0⟩) ∧
    (fitsInsideRect (rightSamplePos 10 10) (TEXTURE_SRC_SIZE : ℚ) = false →
      fitsInsideRect (leftSamplePos 10 10) (TEXTURE_SRC_SIZE : ℚ) = false →
      fitsInsideRect (topSamplePos 10 10) (TEXTURE_SRC_SIZE : ℚ) = true →
      (transformIsometricTexture (List.replicate 256 ⟨1, 1, 1, 255⟩)
          (List.replicate 256 ⟨2, 2, 2, 255⟩) (List.replicate 256 ⟨3, 3, 3, 255⟩)).getD
          (10 * ISOMETRIC_WIDTH + 10) ⟨0, 0, 0, 0⟩
        = (List.replicate 256 ⟨1, 1, 1, 255⟩).getD
            (sampleIdx (topSamplePos 10 10)) ⟨0, 0, 0, 0⟩) ∧
    (fitsInsideRect (topSamplePos 10 10) (TEXTURE_SRC_SIZE : ℚ) = false →
      fitsInsideRect (leftSamplePos 10 10) (TEXTURE_SRC_SIZE : ℚ) = false →
      fitsInsideRect (rightSamplePos 10 10) (TEXTURE_SRC_SIZE : ℚ) = false →
      (transformIsometricTexture (List.replicate 256 ⟨1, 1, 1, 255⟩)
          (List.replicate 256 ⟨2, 2, 2, 255⟩) (List.replicate 256 ⟨3, 3, 3, 255⟩)).getD
          (10 * ISOMETRIC_WIDTH + 10) ⟨0, 0, 0, 0⟩ = ⟨0, 0, 0, 0⟩) :=
  claim_C3_projection (List.replicate 256 ⟨1, 1, 1, 255⟩)
    (List.replicate 256 ⟨2, 2, 2, 255⟩) (List.replicate 256 ⟨3, 3, 3, 255⟩)
    10 10 (by decide) (by decide)

/-- C5: the topmost destination row (y = 0) of a projected isometric tile is
never written: for every x in 0..=32 all three faces' sample positions at
y = 0 fail the fits-inside-rect test, so (for x < 32) the output pixel of
the flattened tile at row 0 is transparent black, whatever the faces hold. -/
theorem claim_C5_topRow (top left right : List Rgba) (x : Nat)
    (hx : x < ISOMETRIC_WIDTH + 1) :
    (fitsInsideRect (topSamplePos x 0) (TEXTURE_SRC_SIZE : ℚ) = false ∧
     fitsInsideRect (leftSamplePos x 0) (TEXTURE_SRC_SIZE : ℚ) = false ∧
     fitsInsideRect (rightSamplePos x 0) (TEXTURE_SRC_SIZE : ℚ) = false) ∧
    (x < ISOMETRIC_WIDTH →
      (transformIsometricTexture top left right).getD
        (0 * ISOMETRIC_WIDTH + x) ⟨0, 0, 0, 0⟩ = ⟨0, 0, 0, 0⟩) := by
  refine ⟨row0_no_fit x hx, fun hx' => ?_⟩
  obtain ⟨h1, h2, h3⟩ := row0_no_fit x hx
  rw [transformIso_get top left right x 0 hx'
    (by norm_num [ISOMETRIC_HEIGHT, TEXTURE_SRC_SIZE])]
  simp [h1, h2, h3]

theorem claim_C5_topRow_witness :
    (fitsInsideRect (topSamplePos 13 0) (TEXTURE_SRC_SIZE : ℚ) = false ∧
     fitsInsideRect (leftSamplePos 13 0) (TEXTURE_SRC_SIZE : ℚ) = false ∧
     fitsInsideRect (rightSamplePos 13 0) (TEXTURE_SRC_SIZE : ℚ) = false) ∧
    (13 < ISOMETRIC_WIDTH →
      (transformIsometricTexture (List.replicate 256 ⟨7, 7, 7, 255⟩)
          (List.replicate 256 ⟨8, 8, 8, 255⟩)
          (List.replicate 256 ⟨9, 9, 9, 255⟩)).getD
        (0 * ISOMETRIC_WIDTH + 13) ⟨0, 0, 0, 0⟩ = ⟨0, 0, 0, 0⟩) :=
  claim_C5_topRow (List.replicate 256 ⟨7, 7, 7, 255⟩)
    (List.replicate 256 ⟨8, 8, 8, 255⟩) (List.replicate 256 ⟨9, 9, 9, 255⟩)
    13 (by decide)

/-! ## Assembling the tiles (`set_isometric_texture_source`) and the emitted
text (`save_textures`) -/

/-- `chunks_exact(3)` on the face list: successive groups of three faces
(top, left, right); a trailing remainder shorter than 3 is dropped. -/
def chunksExact3 : List (List Rgba) → List (List (List Rgba))
  | a :: b :: c :: rest => [a, b, c] :: chunksExact3 rest
  | _ => []

/-- `empty_face_isometric` from `TextureConverter::new`: note the source
allocates `32 * 31` (not 32·32) magenta pixels per placeholder tile. -/
def emptyFaceIsometric : List Rgba := List.replicate (32 * 31) ⟨255, 0, 255, 255⟩

/-- `isometric_texture` as initialised by `TextureConverter::new`:
`BLOCKS * SIDES` copies of `empty_face_isometric` — 69 entries, not 23. -/
def isoInit : List (List Rgba) := List.replicate (BLOCKS * SIDES) emptyFaceIsometric

/-- The `enumerate`d loop of `set_isometric_texture_source`, with the running
chunk index made explicit. -/
def setIsometricAux (i : Nat) (chunks : List (List (List Rgba)))
    (iso : List (List Rgba)) : List (List Rgba) :=
  match chunks with
  | [] => iso
  | c :: cs =>
      setIsometricAux (i + 1) cs
        (iso.set i (transformIsometricTexture (c.getD 0 []) (c.getD 1 []) (c.getD 2 [])))

/-- `TextureConverter::set_isometric_texture_source`: for each
`chunks_exact(3)` group of faces, overwrite `isometric_texture[i]` with the
projected tile. -/
def setIsometricTextureSource (unmod : List (List Rgba))
    (iso : List (List Rgba)) : List (List Rgba) :=
  setIsometricAux 0 (chunksExact3 unmod) iso

/-- One pixel's serialized text: `format!("[{r}, {g}, {b}, {a}],")`. -/
def pixelText (p : Rgba) : String :=
  "[" ++ toString p.r ++ ", " ++ toString p.g ++ ", " ++ toString p.b ++ ", "
    ++ toString p.a ++ "],"

/-- The pixel loop of `save_textures`, appending each pixel's text. -/
def tileText (tile : List Rgba) : String :=
  tile.foldl (fun s p => s ++ pixelText p) ""

/-- The constant's header:
`format!("pub const TEXTURES: [[[u8; 4]; {size}]; {BLOCKS}] = [\n")` with
`size = ISOMETRIC_HEIGHT * ISOMETRIC_WIDTH`. -/
def headerText : String :=
  "pub const TEXTURES: [[[u8; 4]; " ++ toString (ISOMETRIC_HEIGHT * ISOMETRIC_WIDTH)
    ++ "]; " ++ toString BLOCKS ++ "] = [\n"

/-- The sequence of `file.write_all` payloads issued by `save_textures`: the
accumulating `contents` string is flushed once per tile (the first flush also
carries the header) and once more with the closing `"];"`. -/
def saveWrites (tiles : List (List Rgba)) : List String :=
  let r := tiles.foldl
    (fun (acc : List String × String) tile =>
      (acc.1 ++ [acc.2 ++ "[\n" ++ tileText tile ++ "],\n"], ""))
    ([], headerText)
  r.1 ++ [r.2 ++ "];"]

theorem chunksExact3_length (l : List (List Rgba)) :
    (chunksExact3 l).length = l.length / 3 := by
  induction l using chunksExact3.induct with
  | case1 a b c rest ih =>
    simp only [chunksExact3, List.length_cons, ih]
    omega
  | case2 l h =>
    rcases l with _ | ⟨a, _ | ⟨b, _ | ⟨c, rest⟩⟩⟩
    · simp [chunksExact3]
    · simp [chunksExact3]
    · simp [chunksExact3]
    · exact absurd rfl (h a b c rest)

theorem setIsometricAux_length (chunks : List (List (List Rgba))) :
    ∀ (i : Nat) (iso : List (List Rgba)),
      (setIsometricAux i chunks iso).length = iso.length := by
  induction chunks with
  | nil => intro i iso; rfl
  | cons c cs ih =>
    intro i iso
    rw [setIsometricAux, ih, List.length_set]

theorem setIsometricAux_getD (chunks : List (List (List Rgba))) :
    ∀ (i k : Nat) (iso : List (List Rgba)), k < iso.length →
      (setIsometricAux i chunks iso).getD k []
        = if i ≤ k ∧ k < i + chunks.length then
            (fun c => transformIsometricTexture (c.getD 0 []) (c.getD 1 []) (c.getD 2 []))
              (chunks.getD (k - i) [])
          else iso.getD k [] := by
  induction chunks with
  | nil =>
    intro i k iso hk
    simp only [setIsometricAux, List.length_nil, Nat.add_zero]
    rw [if_neg (by omega)]
  | cons c cs ih =>
    intro i k iso hk
    rw [setIsometricAux, ih (i + 1) k _ (by rw [List.length_set]; exact hk)]
    by_cases hcase : i + 1 ≤ k ∧ k < i + 1 + cs.length
    · rw [if_pos hcase, if_pos (by simp only [List.length_cons]; omega)]
      have harith : k - i = (k - (i + 1)) + 1 := by omega
      rw [harith]
      simp [List.getD_cons_succ]
    · rw [if_neg hcase]
      by_cases hik : k = i
      · subst hik
        rw [List.getD_eq_getElem _ _ (by rw [List.length_set]; exact hk)]
        rw [List.getElem_set]
        rw [if_pos rfl, if_pos (by simp only [List.length_cons]; omega)]
        simp
      · have hgd : (iso.set i (transformIsometricTexture
              (c.getD 0 []) (c.getD 1 []) (c.getD 2 []))).getD k [] = iso.getD k [] := by
          rcases Nat.lt_or_ge k iso.length with hklt | hkge
          · rw [List.getD_eq_getElem _ _ (by rw [List.length_set]; exact hklt),
              List.getD_eq_getElem _ _ hklt, List.getElem_set,
              if_neg (fun hcon => hik hcon.symm)]
          · omega
        rw [hgd, if_neg (by simp only [List.length_cons]; omega)]

theorem flatten_length_of_uniform (w : Nat) :
    ∀ (rows : List (List Rgba)),
      (∀ k, k < rows.length → (rows.getD k []).length = w) →
      rows.flatten.length = rows.length * w := by
  intro rows
  induction rows with
  | nil => intro _; simp
  | cons r rs ih =>
    intro hlens
    have hr : r.length = w := by simpa using hlens 0 (by simp)
    simp only [List.flatten_cons, List.length_append, List.length_cons]
    rw [hr, ih (fun k hk => by simpa using hlens (k + 1) (by simpa using hk))]
    ring

theorem transformIsometricTexture_length (top left right : List Rgba) :
    (transformIsometricTexture top left right).length
      = ISOMETRIC_HEIGHT * ISOMETRIC_WIDTH := by
  unfold transformIsometricTexture
  rw [flatten_length_of_uniform ISOMETRIC_WIDTH _
    (fun k hk => transformIso_innerLength top left right k
      (by rw [← transformIso_outerLength top left right]; exact hk))]
  rw [transformIso_outerLength]

theorem saveWrites_aux_length (tiles : List (List Rgba)) :
    ∀ (acc : List String × String),
      (tiles.foldl
        (fun (acc : List String × String) tile =>
          (acc.1 ++ [acc.2 ++ "[\n" ++ tileText tile ++ "],\n"], "")) acc).1.length
        = acc.1.length + tiles.length := by
  induction tiles with
  | nil => intro acc; simp
  | cons t ts ih =>
    intro acc
    rw [List.foldl_cons, ih]
    simp
    omega

theorem saveWrites_length (tiles : List (List Rgba)) :
    (saveWrites tiles).length = tiles.length + 1 := by
  unfold saveWrites
  simp only [List.length_append, List.length_cons, List.length_nil]
  rw [saveWrites_aux_length tiles ([], headerText)]
  simp

/-- C1 (behaviour actually implemented): for any face grid of the
`BLOCKS * SIDES = 69` faces the converter builds, the tile collection that
`save_textures` serializes has 69 entries — one per face slot, not one per
block.  Entries below `BLOCKS = 23` are projected tiles of
`ISOMETRIC_WIDTH * ISOMETRIC_HEIGHT = 1024` pixels, but entries 23..68 keep
the `32 * 31 = 992`-pixel magenta placeholder from `TextureConverter::new`,
and the emitter writes one chunk per each of the 69 entries plus the
terminator.  This contradicts the claim that exactly 23 tile arrays of 1024
pixel tuples each are emitted. -/
theorem claim_C1_emitter (unmod : List (List Rgba))
    (h69 : unmod.length = BLOCKS * SIDES) (i k : Nat)
    (hi : i < BLOCKS) (hk1 : BLOCKS ≤ k) (hk2 : k < BLOCKS * SIDES) :
    (setIsometricTextureSource unmod isoInit).length = BLOCKS * SIDES ∧
    ((setIsometricTextureSource unmod isoInit).getD i []).length
      = ISOMETRIC_WIDTH * ISOMETRIC_HEIGHT ∧
    ((setIsometricTextureSource unmod isoInit).getD k []).length = 32 * 31 ∧
    (saveWrites (setIsometricTextureSource unmod isoInit)).length
      = BLOCKS * SIDES + 1 := by
  have hi' : i < 23 := by simpa [BLOCKS] using hi
  have hk1' : 23 ≤ k := by simpa [BLOCKS] using hk1
  have hk2' : k < 69 := by simpa [BLOCKS, SIDES] using hk2
  have hchunks : (chunksExact3 unmod).length = 23 := by
    rw [chunksExact3_length, h69]
    decide
  have hisoLen : isoInit.length = 69 := by
    unfold isoInit
    rw [List.length_replicate]
    decide
  have houter : (setIsometricTextureSource unmod isoInit).length = BLOCKS * SIDES := by
    unfold setIsometricTextureSource
    rw [setIsometricAux_length, hisoLen]
    decide
  refine ⟨houter, ?_, ?_, ?_⟩
  · unfold setIsometricTextureSource
    rw [setIsometricAux_getD (chunksExact3 unmod) 0 i isoInit (by omega)]
    rw [if_pos (by rw [hchunks]; omega)]
    rw [transformIsometricTexture_length, Nat.mul_comm]
  · unfold setIsometricTextureSource
    rw [setIsometricAux_getD (chunksExact3 unmod) 0 k isoInit (by omega)]
    rw [if_neg (by rw [hchunks]; omega)]
    unfold isoInit
    rw [List.getD_eq_getElem _ _ (by rw [List.length_replicate]; exact hk2'),
      List.getElem_replicate]
    unfold emptyFaceIsometric
    rw [List.length_replicate]
  · rw [saveWrites_length, houter]

theorem claim_C1_emitter_witness :
    (setIsometricTextureSource
        (List.replicate (BLOCKS * SIDES) (List.replicate 256 ⟨5, 5, 5, 255⟩))
        isoInit).length = BLOCKS * SIDES ∧
    ((setIsometricTextureSource
        (List.replicate (BLOCKS * SIDES) (List.replicate 256 ⟨5, 5, 5, 255⟩))
        isoInit).getD 0 []).length = ISOMETRIC_WIDTH * ISOMETRIC_HEIGHT ∧
    ((setIsometricTextureSource
        (List.replicate (BLOCKS * SIDES) (List.replicate 256 ⟨5, 5, 5, 255⟩))
        isoInit).getD 23 []).length = 32 * 31 ∧
    (saveWrites (setIsometricTextureSource
        (List.replicate (BLOCKS * SIDES) (List.replicate 256 ⟨5, 5, 5, 255⟩))
        isoInit)).length = BLOCKS * SIDES + 1 :=
  claim_C1_emitter
    (List.replicate (BLOCKS * SIDES) (List.replicate 256 ⟨5, 5, 5, 255⟩))
    (by rw [List.length_replicate]) 0 23 (by decide) (by decide) (by decide)

/-! ## The output file (`save_textures` I/O) -/

/-- One `write_all` at a file cursor: overwrite `s.length` bytes at `pos`,
keeping any prior content beyond the written range.  `save_textures` opens
the destination with `create(true).write(true)` and no `truncate`, so prior
content survives and the cursor starts at 0. -/
def writeAt (content : List Char) (pos : Nat) (s : List Char) : List Char :=
  content.take pos ++ s ++ content.drop (pos + s.length)

/-- The sequence of `file.write_all` calls, from write index `k` at cursor
`pos`.  `oracle k` says whether the k-th `write_all` succeeds.  The source
discards each call's `Result`, so a failure never stops the run; its partial
effect on the file is irrelevant to the claims and modelled as a skip. -/
def runWrites (oracle : Nat → Bool) : Nat → List Char → Nat → List String → List Char
  | _, content, _, [] => content
  | k, content, pos, w :: ws =>
      if oracle k then
        runWrites oracle (k + 1) (writeAt content pos w.toList)
          (pos + w.toList.length) ws
      else
        runWrites oracle (k + 1) content pos ws

/-- `TextureConverter::save_textures`: open the destination with
`File::options().create(true).write(true).open(path).unwrap()` — the
`unwrap` aborts the run on an open failure (`none`); on success issue the
write sequence, never consulting the writes' results. -/
def saveTextures (tiles : List (List Rgba)) (openOk : Bool) (oracle : Nat → Bool)
    (prior : List Char) : Option (List Char) :=
  if openOk then some (runWrites oracle 0 prior 0 (saveWrites tiles)) else none

/-- The full text `save_textures` would write: the concatenation of the
write payloads. -/
def emittedText (tiles : List (List Rgba)) : List Char :=
  ((saveWrites tiles).map String.toList).flatten

theorem runWrites_true (ws : List String) :
    ∀ (k : Nat) (W tail : List Char),
      runWrites (fun _ => true) k (W ++ tail) W.length ws
        = W ++ (ws.map String.toList).flatten
            ++ tail.drop ((ws.map String.toList).flatten).length := by
  induction ws with
  | nil =>
    intro k W tail
    simp [runWrites]
  | cons w ws ih =>
    intro k W tail
    rw [runWrites, if_pos rfl]
    have hwr : writeAt (W ++ tail) W.length w.toList
        = (W ++ w.toList) ++ tail.drop w.toList.length := by
      unfold writeAt
      rw [List.take_left, List.drop_append, List.append_assoc]
    rw [hwr, show W.length + w.toList.length = (W ++ w.toList).length by simp,
      ih (k + 1) (W ++ w.toList) (tail.drop w.toList.length)]
    simp only [List.map_cons, List.flatten_cons, List.drop_drop, List.append_assoc,
      List.length_append]

/-- C9 (corrected): after a run whose open and writes all succeed, the file
holds the serialized text followed by whatever prior content extended past
its length — the open mode does not truncate, so longer prior content is not
fully replaced. -/
theorem claim_C9_overwrite (tiles : List (List Rgba)) (prior : List Char) :
    saveTextures tiles true (fun _ => true) prior
      = some (emittedText tiles ++ prior.drop (emittedText tiles).length) := by
  unfold saveTextures
  rw [if_pos rfl]
  have h := runWrites_true (saveWrites tiles) 0 [] prior
  simpa [emittedText] using h

/-- C9's counterexample: with prior content one byte longer than the newly
serialized text, the resulting file is not the serialized text — the stale
trailing byte survives. -/
theorem claim_C9_counterexample :
    saveTextures [[⟨255, 0, 255, 255⟩]] true (fun _ => true)
        (emittedText [[⟨255, 0, 255, 255⟩]] ++ [Char.ofNat 88])
      ≠ some (emittedText [[⟨255, 0, 255, 255⟩]]) := by
  unfold saveTextures
  rw [if_pos rfl]
  have h := runWrites_true (saveWrites [[⟨255, 0, 255, 255⟩]]) 0 []
    (emittedText [[⟨255, 0, 255, 255⟩]] ++ [Char.ofNat 88])
  simp only [List.nil_append, List.length_nil] at h
  rw [h]
  intro hcon
  simp only [Option.some.injEq] at hcon
  have hlen := congrArg List.length hcon
  rw [show ((saveWrites [[⟨255, 0, 255, 255⟩]]).map String.toList).flatten
      = emittedText [[⟨255, 0, 255, 255⟩]] from rfl, List.drop_left] at hlen
  simp at hlen

/-- C8 (corrected): a failure to open the destination aborts the run; but a
failing `write_all` does not — the write results are discarded, and the run
completes for every failure pattern of the writes. -/
theorem claim_C8_errors (tiles : List (List Rgba)) (oracle : Nat → Bool)
    (prior : List Char) :
    saveTextures tiles false oracle prior = none ∧
    (saveTextures tiles true oracle prior).isSome = true :=
  ⟨rfl, rfl⟩

/-- C8's counterexample: a run in which every `write_all` fails still
completes instead of aborting. -/
theorem claim_C8_counterexample :
    (saveTextures [[⟨1, 2, 3, 4⟩]] true (fun _ => false) []).isSome = true :=
  rfl

/-- `TextureConverter::generate_rust_texture_source`: normalization first,
then the palette, then face extraction (fallible), then the isometric tiles,
then `save_textures` (the `debug_draw` side channel is outside the core and
has no effect on the emitted artifact). -/
def generateRustTextureSource (img : Image) (openOk : Bool) (oracle : Nat → Bool)
    (prior : List Char) : Option (List Char) :=
  let norm := normalizeTransparentPixels img
  let pal := fillPalette norm.data
  (setUnmodifiedTextureSource norm pal).bind fun unmod =>
    saveTextures (setIsometricTextureSource unmod isoInit) openOk oracle prior

/-- C10: the pipeline is a pure function of the input image — byte-identical
inputs give byte-identical emitted text (same open/write environment). -/
theorem claim_C10_deterministic (img1 img2 : Image) (openOk : Bool)
    (oracle : Nat → Bool) (prior : List Char) (h : img1 = img2) :
    generateRustTextureSource img1 openOk oracle prior
      = generateRustTextureSource img2 openOk oracle prior := by
  rw [h]

theorem claim_C10_deterministic_witness :
    generateRustTextureSource ⟨1, 1, [⟨1, 2, 3, 4⟩]⟩ true (fun _ => true) []
      = generateRustTextureSource ⟨1, 1, [⟨1, 2, 3, 4⟩]⟩ true (fun _ => true) [] :=
  claim_C10_deterministic ⟨1, 1, [⟨1, 2, 3, 4⟩]⟩ ⟨1, 1, [⟨1, 2, 3, 4⟩]⟩ true
    (fun _ => true) [] rfl
